/-
Verification development for the AsyncLibrary Robot Framework extension
(robotframework-async-keyword).

The Python sources are shallowly embedded as pure Lean functions:
  * Python dicts become insertion-ordered association lists with unique keys
    (`lookupA` / `setA` / `popA` mirror `d[k]`, `d[k] = v`, `d.pop(k)`);
  * thread-local attributes (`threading.local().value`) become an `Option`
    field of the state, modelling the single calling thread's view;
  * raising exceptions becomes returning `Except`;
  * Python object identity (`id()`) is modelled by an `oid` field, and
    `copy()` allocates a fresh `oid` from a counter carried in the state.

Sources embedded below:
  * AsyncLibrary/scoped_value.py   (ScopedValue)
  * AsyncLibrary/robot_async.py    (Postpone, ScopedContext.kill,
                                    AsyncLibrary._parse_handle,
                                    AsyncLibrary.async_get,
                                    AsyncLibrary._wait_all)
-/
import Mathlib

namespace AsyncLib

/-- A Python object: `oid` models `id(obj)` (object identity), `payload`
models the structural content compared by `==`. -/
structure PyObj where
  oid : Nat
  payload : Nat
deriving DecidableEq

/-- Exceptions raised by the embedded operations. -/
inductive PyErr where
  /-- Python `KeyError` / `AttributeError` style lookup failure. -/
  | keyError
  /-- `RuntimeError('default scope cannot be killed')`. -/
  | runtimeDefaultScope
  /-- `RuntimeError('a fork with identifier=... does not exist')`. -/
  | runtimeNoFork
deriving DecidableEq

/-- `d[k]` on an association-list dict: first entry with the key. -/
def lookupA {κ α : Type} [DecidableEq κ] : List (κ × α) → κ → Option α
  | [], _ => none
  | (k, v) :: rest, key => if k = key then some v else lookupA rest key

/-- `d[k] = v`: update in place when the key exists, else append
(Python dicts are insertion ordered). -/
def setA {κ α : Type} [DecidableEq κ] : List (κ × α) → κ → α → List (κ × α)
  | [], key, v => [(key, v)]
  | (k, w) :: rest, key, v =>
      if k = key then (key, v) :: rest else (k, w) :: setA rest key v

/-- `d.pop(k)` minus the raise: drop the entry with the key.  All Python
dicts modelled here have unique keys, so dropping every match is the same
as dropping the one entry. -/
def popA {κ α : Type} [DecidableEq κ] : List (κ × α) → κ → List (κ × α)
  | [], _ => []
  | (k, w) :: rest, key =>
      if k = key then popA rest key else (k, w) :: popA rest key

theorem lookupA_setA_self {κ α : Type} [DecidableEq κ]
    (m : List (κ × α)) (k : κ) (v : α) : lookupA (setA m k v) k = some v := by
  induction m with
  | nil => simp [setA, lookupA]
  | cons p rest ih =>
      by_cases h : p.1 = k
      · simp [setA, h, lookupA]
      · simp [setA, h, lookupA, ih]

theorem lookupA_popA_self {κ α : Type} [DecidableEq κ]
    (m : List (κ × α)) (k : κ) : lookupA (popA m k) k = none := by
  induction m with
  | nil => simp [popA, lookupA]
  | cons p rest ih =>
      by_cases h : p.1 = k
      · simp [popA, h, ih]
      · simp [popA, h, lookupA, ih]

/-!
## ScopedValue — AsyncLibrary/scoped_value.py

State fields mirror the Python attributes:
`_scopes` (keys are `none` for the root scope or `some i` for fork ids),
`_forkvalue` (absent = the `_UNDEFINED` sentinel), `_next`,
`_scopeid.value` of the calling thread (`active`; `none` = attribute unset).
`copyable` records whether the stored values expose a `copy` method
(`getattr(..., 'copy')` succeeding), and `objctr` supplies the fresh object
identity a `copy()` call allocates.
-/

structure ScopedValue where
  scopes : List (Option Nat × PyObj)
  forkvalue : Option PyObj
  copyable : Bool
  next : Nat
  active : Option Nat
  objctr : Nat
deriving DecidableEq

/-- The `scope` property: `getattr(self._scopeid, 'value', None)`. -/
def ScopedValue.scope (sv : ScopedValue) : Option Nat := sv.active

/-- `ScopedValue.fork`: allocate the next id and store under it the
configured fork value if present, else a copy of the value active on the
calling thread (a shared reference when the value has no `copy` method).
`self._scopes[self.scope]` raises `KeyError` when the active scope has no
entry. -/
def ScopedValue.fork (sv : ScopedValue) : Except PyErr (Nat × ScopedValue) :=
  let identifier := sv.next
  match sv.forkvalue with
  | some fv =>
      .ok (identifier,
        { sv with scopes := setA sv.scopes (some identifier) fv
                  next := sv.next + 1 })
  | none =>
      match lookupA sv.scopes sv.scope with
      | none => .error .keyError
      | some v =>
          if sv.copyable then
            .ok (identifier,
              { sv with
                  scopes := setA sv.scopes (some identifier)
                    ⟨sv.objctr, v.payload⟩
                  next := sv.next + 1
                  objctr := sv.objctr + 1 })
          else
            .ok (identifier,
              { sv with scopes := setA sv.scopes (some identifier) v
                        next := sv.next + 1 })

/-- `ScopedValue.kill(identifier=-1)`.  The argument is `none` for Python
`None` and `some n` for an integer; the call with the default argument is
`kill (some (-1))`.  A negative integer is replaced by the calling
thread's current scope, `None` is refused, and the entry is popped
(raising `KeyError` when absent).  Afterwards, when the thread's current
scope equals the killed identifier the thread association is cleared
(the `AttributeError` of deleting an unset slot is swallowed). -/
def ScopedValue.kill (sv : ScopedValue) (arg : Option Int) :
    Except PyErr ScopedValue :=
  match arg with
  | none => .error .runtimeDefaultScope
  | some n =>
      let identifier : Option Nat := if n < 0 then sv.scope else some n.toNat
      match lookupA sv.scopes identifier with
      | none => .error .keyError
      | some _ =>
          .ok { sv with
                  scopes := popA sv.scopes identifier
                  active := if sv.active = identifier then none
                            else sv.active }

/-- `ScopedValue.activate`: `None` clears the thread association, a live
id becomes the thread's scope, anything else raises `RuntimeError`. -/
def ScopedValue.activate (sv : ScopedValue) (identifier : Option Nat) :
    Except PyErr ScopedValue :=
  match identifier with
  | none => .ok { sv with active := none }
  | some i =>
      if (lookupA sv.scopes (some i)).isSome then
        .ok { sv with active := some i }
      else
        .error .runtimeNoFork

/-- `ScopedValue.get`: value bound to the calling thread's active scope. -/
def ScopedValue.get (sv : ScopedValue) : Except PyErr PyObj :=
  match lookupA sv.scopes sv.scope with
  | none => .error .keyError
  | some v => .ok v

/-- The scenario of claim C9: `v.activate(v.fork())` followed by
`v.get()`, all on one thread. -/
def forkActivateGet (sv : ScopedValue) : Except PyErr PyObj := do
  let r ← sv.fork
  let sv2 ← r.2.activate (some r.1)
  sv2.get

/-- A ScopedValue holding only the root entry, on a thread that has no
active scope id. -/
def rootOnlySV : ScopedValue :=
  { scopes := [(none, PyObj.mk 0 5)], forkvalue := none, copyable := false
    next := 0, active := none, objctr := 1 }

/-- C2: the claim says the root scope entry is never destroyed and that
`kill` refuses to remove it.  Yet calling `kill` with the default
identifier `-1` on a thread with no active scope resolves the identifier
to the thread's current scope — which is `None`, the root key — and pops
the root entry without raising: the guard
`RuntimeError('default scope cannot be killed')` only fires for an
explicitly passed `None`.  The call succeeds and leaves the scope table
empty. -/
theorem scopedvalue_default_kill_destroys_root :
    rootOnlySV.kill (some (-1)) = Except.ok { rootOnlySV with scopes := [] } ∧
    lookupA (popA rootOnlySV.scopes none) (none : Option Nat) = none := by
  exact ⟨rfl, rfl⟩

/-- A ScopedValue configured with a reset-on-fork value whose payload
differs from the root value's payload. -/
def forkvalueSV : ScopedValue :=
  { scopes := [(none, PyObj.mk 0 5)], forkvalue := some (PyObj.mk 100 0)
    copyable := true, next := 0, active := none, objctr := 1 }

/-- C9 counterexample: for a ScopedValue with a configured fork (reset)
value, `activate(fork())` then `get()` returns the configured value
(payload 0), not a value structurally equal to the value that was active
at fork time (payload 5) — refuting the claim's "for every ScopedValue"
statement. -/
theorem scopedvalue_forkvalue_not_structurally_equal :
    lookupA forkvalueSV.scopes forkvalueSV.scope = some (PyObj.mk 0 5) ∧
    forkActivateGet forkvalueSV = Except.ok (PyObj.mk 100 0) ∧
    (PyObj.mk 100 0).payload ≠ (PyObj.mk 0 5).payload := by
  refine ⟨rfl, rfl, by decide⟩

/-- C9 amended: for a ScopedValue with no configured fork value whose
thread-active scope holds `v`, `activate(fork())` then `get()` returns a
value structurally equal to `v` (same payload), and when the value is
copyable the returned value is a fresh copy, hence not identity-equal to
`v`.  Freshness of the allocated object identity is the hypothesis
`hfresh` (Python guarantees a distinct `id()` for the copy). -/
theorem scopedvalue_fork_activate_get (sv : ScopedValue) (v : PyObj)
    (hfv : sv.forkvalue = none)
    (hv : lookupA sv.scopes sv.scope = some v)
    (hfresh : sv.copyable = true → sv.objctr ≠ v.oid) :
    ∃ r, forkActivateGet sv = Except.ok r ∧ r.payload = v.payload ∧
      (sv.copyable = true → r.oid ≠ v.oid) := by
  have hv' : lookupA sv.scopes sv.active = some v := hv
  cases hc : sv.copyable with
  | true =>
      refine ⟨⟨sv.objctr, v.payload⟩, ?_, rfl, fun _ => hfresh hc⟩
      simp [forkActivateGet, ScopedValue.fork, hfv, hv', hc, Bind.bind,
        Except.bind, ScopedValue.activate, ScopedValue.get,
        ScopedValue.scope, lookupA_setA_self]
  | false =>
      refine ⟨v, ?_, rfl, fun h => absurd h (by simp [hc])⟩
      simp [forkActivateGet, ScopedValue.fork, hfv, hv', hc, Bind.bind,
        Except.bind, ScopedValue.activate, ScopedValue.get,
        ScopedValue.scope, lookupA_setA_self]

/-- A copyable ScopedValue with no configured fork value, used to witness
the amended C9 theorem. -/
def copySV : ScopedValue :=
  { scopes := [(none, PyObj.mk 0 5)], forkvalue := none, copyable := true
    next := 0, active := none, objctr := 1 }

/-- Witness for the amended C9 theorem at a concrete copyable value. -/
theorem scopedvalue_fork_activate_get_witness :
    ∃ r, forkActivateGet copySV = Except.ok r ∧
      r.payload = (PyObj.mk 0 5).payload ∧
      (copySV.copyable = true → r.oid ≠ (PyObj.mk 0 5).oid) :=
  scopedvalue_fork_activate_get copySV (PyObj.mk 0 5) rfl rfl
    (fun _ => by decide)

/-!
## ScopedContext.kill — AsyncLibrary/robot_async.py

A `ScopedContext` retains one fork id per configured attribute binding in
`self._forks`, plus the separately stored fork ids `self._logger` (and
`self._console_logger` when the console logger exists), which are not
part of `_forks`.  `kill()` iterates `zip(self._attributes, forks)`
killing each non-`None` retained id and replacing it with `None`, and
then unconditionally kills the logger (and console logger) fork ids,
which are never nulled out.  `CtxWorld` bundles the context with the
states of the `ScopedValue` objects the retained ids refer to.
-/

structure ScopedContext where
  forks : List (Option Nat)
  logger : Nat
deriving DecidableEq

structure CtxWorld where
  ctx : ScopedContext
  /-- states of the per-binding scope objects, aligned with `ctx.forks` -/
  svs : List ScopedValue
  /-- state of the module-level `logger_scope` -/
  loggerSv : ScopedValue
  /-- `CONSOLE_LOGGER_SCOPE` state with the retained `_console_logger`
  fork id, when the console logger exists -/
  console : Option (Nat × ScopedValue)
deriving DecidableEq

/-- The binding loop of `ScopedContext.kill` over
`zip(self._attributes, forks)`: kill each non-`None` retained fork id on
its scope object and append `None` to the rebuilt fork list. -/
def killBindings : List (ScopedValue × Option Nat) →
    Except PyErr (List ScopedValue × List (Option Nat))
  | [] => .ok ([], [])
  | (sv, fk) :: rest =>
      match fk with
      | none => do
          let r ← killBindings rest
          .ok (sv :: r.1, none :: r.2)
      | some i => do
          let sv2 ← sv.kill (some (i : Int))
          let r ← killBindings rest
          .ok (sv2 :: r.1, none :: r.2)

/-- `ScopedContext.kill`: run the binding loop (which nulls the retained
per-binding fork ids), then kill the logger fork id — retained unnulled —
and the console logger fork id when the console logger exists. -/
def CtxWorld.kill (w : CtxWorld) : Except PyErr CtxWorld := do
  let r ← killBindings (w.svs.zip w.ctx.forks)
  let lsv ← w.loggerSv.kill (some (w.ctx.logger : Int))
  match w.console with
  | none =>
      .ok { w with svs := r.1, ctx := { w.ctx with forks := r.2 }
                   loggerSv := lsv }
  | some (ci, csv) => do
      let csv2 ← csv.kill (some (ci : Int))
      .ok { w with svs := r.1, ctx := { w.ctx with forks := r.2 }
                   loggerSv := lsv, console := some (ci, csv2) }

theorem scopedvalue_kill_nat_scopes (sv sv2 : ScopedValue) (i : Nat)
    (h : sv.kill (some (i : Int)) = Except.ok sv2) :
    sv2.scopes = popA sv.scopes (some i) := by
  have hn : ¬((i : Int) < 0) := (Int.natCast_nonneg i).not_lt
  simp only [ScopedValue.kill, if_neg hn, Int.toNat_natCast] at h
  cases hl : lookupA sv.scopes (some i) with
  | none => rw [hl] at h; exact absurd h (by simp)
  | some v =>
      rw [hl] at h
      cases h
      rfl

theorem scopedvalue_kill_nat_missing (sv : ScopedValue) (i : Nat)
    (h : lookupA sv.scopes (some i) = none) :
    sv.kill (some (i : Int)) = Except.error PyErr.keyError := by
  have hn : ¬((i : Int) < 0) := (Int.natCast_nonneg i).not_lt
  simp only [ScopedValue.kill, if_neg hn, Int.toNat_natCast, h]

theorem killBindings_forks_none (l : List (ScopedValue × Option Nat))
    (r : List ScopedValue × List (Option Nat))
    (h : killBindings l = Except.ok r) : ∀ fk ∈ r.2, fk = none := by
  induction l generalizing r with
  | nil =>
      cases h
      intro fk hfk
      exact absurd hfk (List.not_mem_nil fk)
  | cons p rest ih =>
      obtain ⟨sv, fk⟩ := p
      cases fk with
      | none =>
          cases hr : killBindings rest with
          | error e => simp [killBindings, hr, Bind.bind, Except.bind] at h
          | ok r2 =>
              simp [killBindings, hr, Bind.bind, Except.bind] at h
              subst h
              intro fk hfk
              rcases List.mem_cons.mp hfk with h1 | h1
              · exact h1
              · exact ih r2 hr fk h1
      | some i =>
          cases hk : sv.kill (some (i : Int)) with
          | error e => simp [killBindings, hk, Bind.bind, Except.bind] at h
          | ok sv2 =>
              cases hr : killBindings rest with
              | error e =>
                  simp [killBindings, hk, hr, Bind.bind, Except.bind] at h
              | ok r2 =>
                  simp [killBindings, hk, hr, Bind.bind, Except.bind] at h
                  subst h
                  intro fk hfk
                  rcases List.mem_cons.mp hfk with h1 | h1
                  · exact h1
                  · exact ih r2 hr fk h1

theorem killBindings_lengths (l : List (ScopedValue × Option Nat))
    (r : List ScopedValue × List (Option Nat))
    (h : killBindings l = Except.ok r) :
    r.1.length = l.length ∧ r.2.length = l.length := by
  induction l generalizing r with
  | nil => cases h; exact ⟨rfl, rfl⟩
  | cons p rest ih =>
      obtain ⟨sv, fk⟩ := p
      cases fk with
      | none =>
          cases hr : killBindings rest with
          | error e => simp [killBindings, hr, Bind.bind, Except.bind] at h
          | ok r2 =>
              simp [killBindings, hr, Bind.bind, Except.bind] at h
              subst h
              obtain ⟨h1, h2⟩ := ih r2 hr
              exact ⟨by simp [h1], by simp [h2]⟩
      | some i =>
          cases hk : sv.kill (some (i : Int)) with
          | error e => simp [killBindings, hk, Bind.bind, Except.bind] at h
          | ok sv2 =>
              cases hr : killBindings rest with
              | error e =>
                  simp [killBindings, hk, hr, Bind.bind, Except.bind] at h
              | ok r2 =>
                  simp [killBindings, hk, hr, Bind.bind, Except.bind] at h
                  subst h
                  obtain ⟨h1, h2⟩ := ih r2 hr
                  exact ⟨by simp [h1], by simp [h2]⟩

theorem killBindings_all_none (l : List (ScopedValue × Option Nat))
    (h : ∀ p ∈ l, p.2 = none) :
    killBindings l = Except.ok (l.map Prod.fst, l.map fun _ => none) := by
  induction l with
  | nil => rfl
  | cons p rest ih =>
      obtain ⟨sv, fk⟩ := p
      have hfk : fk = none := h (sv, fk) (List.mem_cons_self _ _)
      subst hfk
      have hrest : ∀ p ∈ rest, p.2 = none :=
        fun p hp => h p (List.mem_cons_of_mem _ hp)
      simp [killBindings, ih hrest, Bind.bind, Except.bind]

theorem killBindings_replicate (svs : List ScopedValue) (n : Nat)
    (h : svs.length = n) :
    killBindings (svs.zip (List.replicate n none)) =
      Except.ok (svs, List.replicate n none) := by
  induction svs generalizing n with
  | nil => subst h; rfl
  | cons sv rest ih =>
      subst h
      have ih' := ih rest.length rfl
      simp only [List.zip] at ih'
      simp [List.replicate_succ, killBindings, ih',
        Bind.bind, Except.bind]

theorem ctxworld_kill_structure (w w2 : CtxWorld)
    (h : w.kill = Except.ok w2) :
    ∃ r lsv, killBindings (w.svs.zip w.ctx.forks) = Except.ok r ∧
      w.loggerSv.kill (some (w.ctx.logger : Int)) = Except.ok lsv ∧
      w2.svs = r.1 ∧ w2.ctx.forks = r.2 ∧ w2.ctx.logger = w.ctx.logger ∧
      w2.loggerSv = lsv := by
  unfold CtxWorld.kill at h
  cases hkb : killBindings (w.svs.zip w.ctx.forks) with
  | error e => rw [hkb] at h; simp [Bind.bind, Except.bind] at h
  | ok r =>
      rw [hkb] at h
      cases hlk : w.loggerSv.kill (some (w.ctx.logger : Int)) with
      | error e => rw [hlk] at h; simp [Bind.bind, Except.bind] at h
      | ok lsv =>
          rw [hlk] at h
          cases hco : w.console with
          | none =>
              rw [hco] at h
              simp only [Bind.bind, Except.bind, Except.ok.injEq] at h
              exact ⟨r, lsv, rfl, rfl, by rw [← h], by rw [← h],
                by rw [← h], by rw [← h]⟩
          | some p =>
              obtain ⟨ci, csv⟩ := p
              rw [hco] at h
              cases hck : csv.kill (some (ci : Int)) with
              | error e =>
                  simp [Bind.bind, Except.bind, hck] at h
              | ok csv2 =>
                  simp only [Bind.bind, Except.bind, hck,
                    Except.ok.injEq] at h
                  exact ⟨r, lsv, rfl, rfl, by rw [← h], by rw [← h],
                    by rw [← h], by rw [← h]⟩

/-- A binding scope object holding the root entry plus the entry for the
retained fork id 0. -/
def bindingSV : ScopedValue :=
  { scopes := [(none, PyObj.mk 0 0), (some 0, PyObj.mk 1 0)]
    forkvalue := none, copyable := false, next := 1, active := none
    objctr := 2 }

/-- A live ScopedContext world: one attribute binding with retained fork
id 0, the logger scope with retained fork id 0, no console logger. -/
def cexCtxWorld : CtxWorld :=
  { ctx := { forks := [some 0], logger := 0 }
    svs := [bindingSV], loggerSv := bindingSV, console := none }

/-- C3 counterexample: the claim says a second `kill()` on the same
`ScopedContext` is a no-op raising no error.  On this concrete context
the first `kill()` succeeds, but the second raises a key-lookup error:
`self._logger` is never nulled out, so the second `kill()` calls
`logger_scope.kill` again on the already-popped logger fork id. -/
theorem scopedcontext_second_kill_raises :
    cexCtxWorld.kill.map CtxWorld.kill =
      Except.ok (Except.error PyErr.keyError) := by rfl

/-- C3 amended: after one successful `kill()` every retained per-binding
fork id has been nulled out, so the binding loop of a second `kill()`
kills nothing and returns every per-binding ScopedValue unchanged; but
the retained logger fork id is not nulled, and the second `kill()`
raises a key-lookup error from the logger scope instead of being a
no-op. -/
theorem scopedcontext_kill_not_idempotent (w w2 : CtxWorld)
    (h : w.kill = Except.ok w2) :
    (∀ fk ∈ w2.ctx.forks, fk = none) ∧
    killBindings (w2.svs.zip w2.ctx.forks) =
      Except.ok (w2.svs, w2.ctx.forks) ∧
    w2.kill = Except.error PyErr.keyError := by
  obtain ⟨r, lsv, hkb, hlk, hsvs, hforks, hlog, hlsv⟩ :=
    ctxworld_kill_structure w w2 h
  have hnone := killBindings_forks_none _ _ hkb
  have hlen := killBindings_lengths _ _ hkb
  have hr2 : r.2 = List.replicate r.2.length none :=
    List.eq_replicate_of_mem hnone
  have hkb2 : killBindings (w2.svs.zip w2.ctx.forks) =
      Except.ok (w2.svs, w2.ctx.forks) := by
    rw [hsvs, hforks, hr2]
    exact killBindings_replicate r.1 r.2.length (hlen.1.trans hlen.2.symm)
  refine ⟨?_, hkb2, ?_⟩
  · intro fk hfk
    rw [hforks] at hfk
    exact hnone fk hfk
  · have hmiss : lookupA lsv.scopes (some w.ctx.logger) = none := by
      rw [scopedvalue_kill_nat_scopes w.loggerSv lsv w.ctx.logger hlk]
      exact lookupA_popA_self _ _
    have herr : lsv.kill (some (w.ctx.logger : Int)) =
        Except.error PyErr.keyError :=
      scopedvalue_kill_nat_missing lsv w.ctx.logger hmiss
    unfold CtxWorld.kill
    rw [hkb2, hlsv, hlog]
    simp [Bind.bind, Except.bind, herr]

/-- The state of `cexCtxWorld` after its first successful `kill()`. -/
def killedBindingSV : ScopedValue :=
  { scopes := [(none, PyObj.mk 0 0)], forkvalue := none, copyable := false
    next := 1, active := none, objctr := 2 }

def killedCtxWorld : CtxWorld :=
  { ctx := { forks := [none], logger := 0 }
    svs := [killedBindingSV], loggerSv := killedBindingSV, console := none }

/-- Witness for the amended C3 theorem: the concrete live world above
satisfies the hypothesis (its first kill succeeds). -/
theorem scopedcontext_kill_not_idempotent_witness :
    (∀ fk ∈ (killedCtxWorld).ctx.forks, fk = none) ∧
    killBindings ((killedCtxWorld).svs.zip (killedCtxWorld).ctx.forks) =
      Except.ok ((killedCtxWorld).svs, (killedCtxWorld).ctx.forks) ∧
    (killedCtxWorld).kill = Except.error PyErr.keyError :=
  scopedcontext_kill_not_idempotent cexCtxWorld killedCtxWorld (by rfl)

/-!
## Postpone — AsyncLibrary/robot_async.py

The deferred-effect journal: `fork` allocates stream ids, `activate`
creates a queue and binds the id to the calling thread, the decorator
`postpone` wraps the xml writer's `start`/`end`/`element`, and `replay`
drains a queue in FIFO order.
-/

/-- One intercepted sink call: the original function reference plus the
captured positional and keyword arguments
(`[func, list(args), dict(kwargs)]`). -/
structure Call where
  func : Nat
  args : List Nat
  kwargs : List (Nat × Nat)
deriving DecidableEq

/-- `Postpone` state: `_postponed` (stream id to queue), `_next`, and the
calling thread's `_id.value` (`active`; `none` = attribute unset). -/
structure Postpone where
  postponed : List (Nat × List Call)
  nextId : Nat
  active : Option Nat
deriving DecidableEq

/-- `Postpone.fork`: allocate the next id; no queue is created for it. -/
def Postpone.fork (p : Postpone) : Nat × Postpone :=
  (p.nextId, { p with nextId := p.nextId + 1 })

/-- `Postpone.activate`: create an empty queue for the id and make it the
calling thread's active id. -/
def Postpone.activate (p : Postpone) (i : Nat) : Postpone :=
  { p with postponed := setA p.postponed i [], active := some i }

/-- `Postpone.deactivate`: clear the thread association. -/
def Postpone.deactivate (p : Postpone) : Postpone :=
  { p with active := none }

/-- `Postpone.get`: the calling thread's active id, `None` when unset. -/
def Postpone.get (p : Postpone) : Option Nat := p.active

/-- The wrapper `inner` the `postpone` decorator puts around a sink
function.  `execf` abstracts the original function (its return value);
a postponed call returns Python `None`, modelled as `none`.  When an id
is active, the call is appended to that id's queue
(`self._postponed[postpone_id].append(...)` raises `KeyError` when the
queue does not exist). -/
def Postpone.postponeCall (p : Postpone) (execf : Call → Nat) (c : Call) :
    Except PyErr (Option Nat × Postpone) :=
  match p.get with
  | none => .ok (some (execf c), p)
  | some i =>
      match lookupA p.postponed i with
      | none => .error .keyError
      | some q =>
          .ok (none, { p with postponed := setA p.postponed i (q ++ [c]) })

/-- `Postpone.replay`: pop and execute the queued calls in FIFO order
until `IndexError`, then delete the queue entry.  The executed calls are
returned as the trace, in execution order.  An id without a queue (never
activated) raises `KeyError` at the first access — only `IndexError` is
caught by the loop. -/
def Postpone.replay (p : Postpone) (i : Nat) :
    Except PyErr (List Call × Postpone) :=
  match lookupA p.postponed i with
  | none => .error .keyError
  | some q => .ok (q, { p with postponed := popA p.postponed i })

/-- C8: an intercepted sink write invoked while an effect-stream id is
active on the calling thread appends the call (function reference plus
captured arguments) to that id's queue — which `activate` created — and
returns the no-op result `None` immediately; when no id is active on the
calling thread, the call passes through to the original function and its
result is returned with the journal unchanged. -/
theorem postpone_intercept (p : Postpone) (execf : Call → Nat) (c : Call) :
    (p.active = none →
      p.postponeCall execf c = Except.ok (some (execf c), p)) ∧
    (∀ i q, p.active = some i → lookupA p.postponed i = some q →
      p.postponeCall execf c =
        Except.ok (none,
          { p with postponed := setA p.postponed i (q ++ [c]) })) := by
  constructor
  · intro h
    simp [Postpone.postponeCall, Postpone.get, h]
  · intro i q h hq
    simp [Postpone.postponeCall, Postpone.get, h, hq]

/-- A journal with no thread-active id. -/
def idleP : Postpone := { postponed := [], nextId := 0, active := none }

/-- A journal whose thread has id 0 active, with the queue `activate`
created for it. -/
def activeP : Postpone :=
  { postponed := [(0, [])], nextId := 1, active := some 0 }

def cexCall : Call := { func := 3, args := [1, 2], kwargs := [(7, 8)] }

/-- Witness for the C8 theorem: both arms at concrete journals. -/
theorem postpone_intercept_witness :
    idleP.postponeCall (fun _ => 42) cexCall = Except.ok (some 42, idleP) ∧
    activeP.postponeCall (fun _ => 42) cexCall =
      Except.ok (none,
        { activeP with postponed := setA activeP.postponed 0 ([] ++ [cexCall]) }) :=
  ⟨(postpone_intercept idleP (fun _ => 42) cexCall).1 rfl,
   (postpone_intercept activeP (fun _ => 42) cexCall).2 0 [] rfl rfl⟩

/-- C10: replaying an effect-stream id obtained from `Postpone.fork` on
which `Postpone.activate` was never called raises a key-lookup error
rather than being a no-op: only `activate` creates the per-id queue, and
`replay` catches only `IndexError`, not the `KeyError` of a missing
queue.  The hypothesis says no queue exists yet for the id `fork` hands
out. -/
theorem postpone_replay_unactivated (p : Postpone)
    (h : lookupA p.postponed p.nextId = none) :
    (p.fork.2).replay p.fork.1 = Except.error PyErr.keyError := by
  simp [Postpone.replay, Postpone.fork, h]

/-- Witness for the C10 theorem at a fresh journal. -/
theorem postpone_replay_unactivated_witness :
    (idleP.fork.2).replay idleP.fork.1 = Except.error PyErr.keyError :=
  postpone_replay_unactivated idleP rfl

/-!
## Further association-list lemmas shared by the handle-manager proofs
-/

theorem lookupA_isSome_of_mem_keys {κ α : Type} [DecidableEq κ]
    (m : List (κ × α)) (k : κ) (h : k ∈ m.map Prod.fst) :
    (lookupA m k).isSome := by
  induction m with
  | nil => simp at h
  | cons p rest ih =>
      by_cases hp : p.1 = k
      · simp [lookupA, hp]
      · simp only [List.map_cons, List.mem_cons] at h
        rcases h with h1 | h1
        · exact absurd h1.symm hp
        · simp [lookupA, hp, ih h1]

theorem lookupA_mem {κ α : Type} [DecidableEq κ]
    (m : List (κ × α)) (k : κ) (v : α) (h : lookupA m k = some v) :
    (k, v) ∈ m := by
  induction m with
  | nil => simp [lookupA] at h
  | cons p rest ih =>
      obtain ⟨pk, pv⟩ := p
      by_cases hp : pk = k
      · subst hp
        simp [lookupA] at h
        subst h
        exact List.mem_cons_self _ _
      · simp only [lookupA, if_neg hp] at h
        exact List.mem_cons_of_mem _ (ih h)

theorem lookupA_eq_of_mem {κ α : Type} [DecidableEq κ]
    (m : List (κ × α)) (hnd : (m.map Prod.fst).Nodup) (k : κ) (v : α)
    (h : (k, v) ∈ m) : lookupA m k = some v := by
  induction m with
  | nil => simp at h
  | cons p rest ih =>
      rcases List.mem_cons.mp h with h1 | h1
      · simp [lookupA, ← h1]
      · have hk : k ∈ rest.map Prod.fst :=
          List.mem_map_of_mem Prod.fst h1
        have hp : p.1 ≠ k := by
          intro he
          exact (List.nodup_cons.mp hnd).1 (he ▸ hk)
        simp [lookupA, hp, ih (List.nodup_cons.mp hnd).2 h1]

theorem lookupA_append {κ α : Type} [DecidableEq κ]
    (m1 m2 : List (κ × α)) (k : κ) :
    lookupA (m1 ++ m2) k =
      match lookupA m1 k with
      | some v => some v
      | none => lookupA m2 k := by
  induction m1 with
  | nil => simp [lookupA]
  | cons p rest ih =>
      by_cases hp : p.1 = k <;> simp [lookupA, hp, ih]

theorem popA_eq_filter {κ α : Type} [DecidableEq κ]
    (m : List (κ × α)) (k : κ) :
    popA m k = m.filter fun p => decide (p.1 ≠ k) := by
  induction m with
  | nil => rfl
  | cons p rest ih =>
      by_cases hp : p.1 = k <;> simp [popA, hp, ih]

theorem lookupA_filter_key {κ α : Type} [DecidableEq κ]
    (m : List (κ × α)) (pred : κ → Bool) (k : κ) :
    lookupA (m.filter fun p => pred p.1) k =
      if pred k then lookupA m k else none := by
  induction m with
  | nil => simp [lookupA]
  | cons p rest ih =>
      by_cases hp : p.1 = k
      · subst hp
        cases hpk : pred p.1 <;> simp [lookupA, hpk, ih]
      · cases hpk : pred p.1 <;> simp [lookupA, hp, hpk, ih]

theorem filterMap_ext {α β : Type} (l : List α) (f g : α → Option β)
    (h : ∀ a ∈ l, f a = g a) : l.filterMap f = l.filterMap g := by
  induction l with
  | nil => rfl
  | cons a rest ih =>
      rw [List.filterMap_cons, List.filterMap_cons, h a (by simp),
        ih fun b hb => h b (List.mem_cons_of_mem a hb)]

/-!
## Task handle manager — AsyncLibrary._parse_handle / async_get

Embedded from AsyncLibrary/robot_async.py (the AsyncLibrary.py variant
differs only in feature-testing ExceptionGroup through getattr instead of
try/except, with the same raise behaviour).
-/

/-- A live future as tracked by `self._futures`: the exception the
keyword raised (if any), its result value, and the effect-stream id
attached at submission (`future._postpone_id`). -/
structure MFuture where
  exc : Option Nat
  res : Nat
  postponeId : Nat
deriving DecidableEq

/-- The `handle` argument of `async_get`: Python `None`, a single
non-iterable handle, or an iterable of handles. -/
inductive HandleArg where
  | all
  | single (h : Nat)
  | many (hs : List Nat)
deriving DecidableEq

/-- An error gathered into the `exceptions` list of `async_get`. -/
inductive GErr where
  /-- `futures[h].exception()` of a finished future -/
  | futureExc (e : Nat)
  /-- `TimeoutError(f'{len(result.not_done)} (of {len(futures)}) futures unfinished')` -/
  | timeoutErr (unfinished total : Nat)
deriving DecidableEq

/-- What an `async_get` call raises. -/
inductive AsyncRaise where
  /-- `RuntimeError(f'handle={item} passed more than once')` -/
  | dupHandle (h : Nat)
  /-- `KeyError` from `self._futures[item]` on an unknown handle -/
  | unknownHandle (h : Nat)
  /-- `raise exceptions[-1]` -/
  | single (e : GErr)
  /-- `ExceptionGroup('async_get caught exceptions', exceptions)` -/
  | group (es : List GErr)
deriving DecidableEq

/-- First loop of `_parse_handle`: reject duplicates and look every
requested handle up in the live table, building the `futures` snapshot;
runs before anything is removed. -/
def parseLoop1 (futures : List (Nat × MFuture)) :
    List Nat → List (Nat × MFuture) →
    Except AsyncRaise (List (Nat × MFuture))
  | [], acc => .ok acc
  | h :: rest, acc =>
      if (lookupA acc h).isSome then .error (.dupHandle h)
      else
        match lookupA futures h with
        | none => .error (.unknownHandle h)
        | some f => parseLoop1 futures rest (acc ++ [(h, f)])

/-- Second loop of `_parse_handle`: `self._futures.pop(item)` for each
requested handle (all present, the first loop checked). -/
def removeHandles (futures : List (Nat × MFuture)) (hs : List Nat) :
    List (Nat × MFuture) :=
  hs.foldl popA futures

/-- `AsyncLibrary._parse_handle`: resolve the handle argument (`None`
means all live handles, sorted ascending), snapshot the requested
futures with the duplicate check, then remove them from the live table
in a second step so that no future is lost on error.  Returns the parse
result (or raised error) with the live table afterwards — unchanged when
an error is raised, since the pop loop never ran. -/
def parseHandle (futures : List (Nat × MFuture)) (arg : HandleArg) :
    Except AsyncRaise (Bool × List Nat × List (Nat × MFuture)) ×
      List (Nat × MFuture) :=
  let rh : Bool × List Nat :=
    match arg with
    | .all => (true, List.insertionSort (· ≤ ·) (futures.map Prod.fst))
    | .many hs => (true, hs)
    | .single h => (false, [h])
  match parseLoop1 futures rh.2 [] with
  | .error e => (.error e, futures)
  | .ok fmap => (.ok (rh.1, rh.2, fmap), removeHandles futures rh.2)

/-- Outcome of an `async_get` call: the return value or raised error
(`Sum.inl` the list return, `Sum.inr` the single `ret[-1]`), the live
table afterwards, and the postpone ids replayed in replay order. -/
structure AsyncGetOut where
  result : Except AsyncRaise (List Nat ⊕ Nat)
  futures : List (Nat × MFuture)
  replayed : List Nat

/-- `AsyncLibrary.async_get`.  `timeoutSet` is whether a (truthy)
`timeout` was passed; `fin h` says whether handle `h`'s future finished
within the wait (landed in `result.done` of `concurrent.futures.wait`);
without a timeout the wait blocks until every future is done.  `hasEG`
is whether the runtime provides `ExceptionGroup`: the source raises it
inside `try` and falls back to `raise exceptions[-1]` on `NameError`.
In the no-error return, `futures[h].result()` is the stored result value
(its re-raise case cannot occur: every gathered exception was checked
first).  `ret[-1]` for a single handle is the last element. -/
def asyncGet (futures : List (Nat × MFuture)) (arg : HandleArg)
    (timeoutSet : Bool) (fin : Nat → Bool) (hasEG : Bool) : AsyncGetOut :=
  match parseHandle futures arg with
  | (.error e, fut) => { result := .error e, futures := fut, replayed := [] }
  | (.ok (retlist, handles, fmap), fut) =>
      let doneOf : Nat → Bool := fun h => !timeoutSet || fin h
      let excs : List GErr := handles.filterMap fun h =>
        if doneOf h then
          ((lookupA fmap h).bind MFuture.exc).map GErr.futureExc
        else none
      let notDone := fmap.filter fun q => !doneOf q.1
      let fut2 := if notDone.isEmpty then fut
        else notDone.foldl (fun m q => setA m q.1 q.2) fut
      let excs2 := if notDone.isEmpty then excs
        else excs ++ [GErr.timeoutErr notDone.length fmap.length]
      let replayed := (handles.filter doneOf).filterMap fun h =>
        (lookupA fmap h).map MFuture.postponeId
      match excs2 with
      | [] =>
          let ret := handles.filterMap fun h =>
            (lookupA fmap h).map MFuture.res
          { result := .ok (if retlist then .inl ret
              else .inr (ret.getLastD 0))
            futures := fut2, replayed := replayed }
      | e :: es =>
          let raised := if es.isEmpty then AsyncRaise.single e
            else if hasEG then AsyncRaise.group (e :: es)
            else AsyncRaise.single ((e :: es).getLast (List.cons_ne_nil e es))
          { result := .error raised, futures := fut2, replayed := replayed }

/-- C7: a collect request passing the same handle twice fails immediately
with a usage error — the duplicate-handle `RuntimeError` when the handle
is live, the unknown-handle `KeyError` otherwise — and leaves the live
handle table unchanged with nothing replayed: the duplicate check and
the snapshot lookups both run before the pop loop. -/
theorem async_get_duplicate_handle (futures : List (Nat × MFuture))
    (h : Nat) (timeoutSet : Bool) (fin : Nat → Bool) (hasEG : Bool) :
    (asyncGet futures (.many [h, h]) timeoutSet fin hasEG).result =
      Except.error (if (lookupA futures h).isSome then .dupHandle h
                    else .unknownHandle h) ∧
    (asyncGet futures (.many [h, h]) timeoutSet fin hasEG).futures =
      futures ∧
    (asyncGet futures (.many [h, h]) timeoutSet fin hasEG).replayed = [] := by
  cases hl : lookupA futures h with
  | none => simp [asyncGet, parseHandle, parseLoop1, hl, lookupA]
  | some f => simp [asyncGet, parseHandle, parseLoop1, hl, lookupA]

theorem parseLoop1_ok (futures : List (Nat × MFuture)) (hs : List Nat)
    (acc : List (Nat × MFuture)) (hnd : hs.Nodup)
    (hdisj : ∀ h ∈ hs, lookupA acc h = none)
    (hpres : ∀ h ∈ hs, (lookupA futures h).isSome) :
    parseLoop1 futures hs acc =
      Except.ok (acc ++ hs.filterMap fun h =>
        (lookupA futures h).map fun f => (h, f)) := by
  induction hs generalizing acc with
  | nil => simp [parseLoop1]
  | cons h rest ih =>
      have hdh : lookupA acc h = none := hdisj h (List.mem_cons_self h rest)
      obtain ⟨f, hf⟩ := Option.isSome_iff_exists.mp
        (hpres h (List.mem_cons_self h rest))
      have hnd2 := List.nodup_cons.mp hnd
      have hdisj2 : ∀ x ∈ rest, lookupA (acc ++ [(h, f)]) x = none := by
        intro x hx
        rw [lookupA_append]
        rw [hdisj x (List.mem_cons_of_mem h hx)]
        have hxh : h ≠ x := fun he => hnd2.1 (he ▸ hx)
        simp [lookupA, hxh]
      have := ih (acc ++ [(h, f)]) hnd2.2 hdisj2
        (fun x hx => hpres x (List.mem_cons_of_mem h hx))
      simp only [parseLoop1, hdh, Option.isSome_none, Bool.false_eq_true,
        if_false, hf, this, List.filterMap_cons, Option.map_some,
        Option.map_some', List.append_assoc, List.singleton_append]

theorem removeHandles_eq_filter (m : List (Nat × MFuture))
    (hs : List Nat) :
    removeHandles m hs = m.filter fun p => decide (p.1 ∉ hs) := by
  induction hs generalizing m with
  | nil => simp [removeHandles]
  | cons h rest ih =>
      have h1 : removeHandles m (h :: rest) =
          removeHandles (popA m h) rest := rfl
      rw [h1, ih, popA_eq_filter, List.filter_filter]
      apply List.filter_congr
      intro p _
      by_cases e1 : p.1 = h <;> by_cases e2 : p.1 ∈ rest <;> simp [e1, e2]

theorem removeHandles_all (m : List (Nat × MFuture)) (hs : List Nat)
    (h : ∀ p ∈ m, p.1 ∈ hs) : removeHandles m hs = [] := by
  rw [removeHandles_eq_filter]
  apply List.filter_eq_nil_iff.mpr
  intro p hp
  simp [h p hp]

theorem lookupA_parse_fmap (futures : List (Nat × MFuture))
    (hs : List Nat) (hnd : hs.Nodup)
    (hpres : ∀ x ∈ hs, (lookupA futures x).isSome) (h : Nat)
    (hh : h ∈ hs) :
    lookupA (hs.filterMap fun x =>
      (lookupA futures x).map fun f => (x, f)) h = lookupA futures h := by
  induction hs with
  | nil => cases hh
  | cons x rest ih =>
      obtain ⟨f, hf⟩ := Option.isSome_iff_exists.mp
        (hpres x (List.mem_cons_self x rest))
      have hnd2 := List.nodup_cons.mp hnd
      by_cases hx : x = h
      · subst hx
        simp [List.filterMap_cons, hf, lookupA]
      · rcases List.mem_cons.mp hh with h1 | h1
        · exact absurd h1.symm hx
        · simp only [List.filterMap_cons, hf, Option.map_some,
            Option.map_some']
          rw [show ((x, f) :: List.filterMap (fun x =>
              Option.map (fun f => (x, f)) (lookupA futures x)) rest) =
            [(x, f)] ++ List.filterMap (fun x =>
              Option.map (fun f => (x, f)) (lookupA futures x)) rest
            from rfl, lookupA_append]
          simp only [lookupA, hx, if_false]
          exact ih hnd2.2 (fun y hy => hpres y (List.mem_cons_of_mem x hy))
            h1

/-- C4: `async_get` with no handle argument on N live handles returns
the results in ascending handle order, replays each task's effect-stream
in that same ascending handle order, and empties the live table —
independently of the wait partition `fin` (the completion order plays no
role: without a timeout the wait blocks until all futures are done). -/
theorem async_get_all_ascending (futures : List (Nat × MFuture))
    (fin : Nat → Bool) (hasEG : Bool)
    (hnd : (futures.map Prod.fst).Nodup)
    (hexc : ∀ p ∈ futures, p.2.exc = none) :
    (asyncGet futures .all false fin hasEG).result =
      Except.ok (Sum.inl
        ((List.insertionSort (· ≤ ·) (futures.map Prod.fst)).filterMap
          fun h => (lookupA futures h).map MFuture.res)) ∧
    (asyncGet futures .all false fin hasEG).replayed =
      (List.insertionSort (· ≤ ·) (futures.map Prod.fst)).filterMap
        (fun h => (lookupA futures h).map MFuture.postponeId) ∧
    List.Sorted (· ≤ ·)
      (List.insertionSort (· ≤ ·) (futures.map Prod.fst)) ∧
    (asyncGet futures .all false fin hasEG).futures = [] := by
  set sorted := List.insertionSort (· ≤ ·) (futures.map Prod.fst) with hsdef
  have hperm : sorted.Perm (futures.map Prod.fst) :=
    List.perm_insertionSort _ _
  have hnd2 : sorted.Nodup := hperm.nodup_iff.mpr hnd
  have hpres : ∀ x ∈ sorted, (lookupA futures x).isSome :=
    fun x hx => lookupA_isSome_of_mem_keys futures x (hperm.subset hx)
  have hpl := parseLoop1_ok futures sorted [] hnd2
    (fun x _ => rfl) hpres
  set fmap := sorted.filterMap
    (fun h => (lookupA futures h).map fun f => (h, f)) with hfmdef
  have hlook : ∀ h ∈ sorted, lookupA fmap h = lookupA futures h :=
    fun h hh => lookupA_parse_fmap futures sorted hnd2 hpres h hh
  have hrem : removeHandles futures sorted = [] :=
    removeHandles_all futures sorted
      (fun p hp => hperm.mem_iff.mpr (List.mem_map_of_mem Prod.fst hp))
  have hph : parseHandle futures .all =
      (Except.ok (true, sorted, fmap), []) := by
    simp only [parseHandle, hpl, hrem, List.nil_append]
  have hexcs : sorted.filterMap
      (fun h => ((lookupA fmap h).bind MFuture.exc).map GErr.futureExc)
        = [] := by
    apply List.filterMap_eq_nil_iff.mpr
    intro h hh
    rw [hlook h hh]
    obtain ⟨f, hf⟩ := Option.isSome_iff_exists.mp (hpres h hh)
    rw [hf]
    have hfe : f.exc = none := hexc (h, f) (lookupA_mem futures h f hf)
    simp [Option.bind, hfe]
  have hget : asyncGet futures .all false fin hasEG =
      { result := Except.ok (Sum.inl (sorted.filterMap fun h =>
          (lookupA fmap h).map MFuture.res))
        futures := []
        replayed := sorted.filterMap fun h =>
          (lookupA fmap h).map MFuture.postponeId } := by
    simp only [asyncGet, hph, Bool.not_false, Bool.true_or, if_true,
      Bool.not_true, List.filter_false, List.filter_true, List.isEmpty_nil,
      hexcs]
  rw [hget]
  refine ⟨?_, ?_, List.sorted_insertionSort _ _, rfl⟩
  · have := filterMap_ext sorted
      (fun h => (lookupA fmap h).map MFuture.res)
      (fun h => (lookupA futures h).map MFuture.res)
      (fun h hh => by
        show (lookupA fmap h).map MFuture.res =
          (lookupA futures h).map MFuture.res
        rw [hlook h hh])
    simp only [this]
  · have := filterMap_ext sorted
      (fun h => (lookupA fmap h).map MFuture.postponeId)
      (fun h => (lookupA futures h).map MFuture.postponeId)
      (fun h hh => by
        show (lookupA fmap h).map MFuture.postponeId =
          (lookupA futures h).map MFuture.postponeId
        rw [hlook h hh])
    simp only [this]

/-- Witness table for the ordered-collection theorem: two live tasks
inserted out of handle order. -/
def wFutures : List (Nat × MFuture) :=
  [(1, MFuture.mk none 21 11), (0, MFuture.mk none 20 10)]

/-- Witness for the C4 theorem at a concrete two-task table. -/
theorem async_get_all_ascending_witness :
    (asyncGet wFutures .all false (fun _ => false) false).result =
      Except.ok (Sum.inl
        ((List.insertionSort (· ≤ ·) (wFutures.map Prod.fst)).filterMap
          fun h => (lookupA wFutures h).map MFuture.res)) ∧
    (asyncGet wFutures .all false (fun _ => false) false).replayed =
      (List.insertionSort (· ≤ ·) (wFutures.map Prod.fst)).filterMap
        (fun h => (lookupA wFutures h).map MFuture.postponeId) ∧
    List.Sorted (· ≤ ·)
      (List.insertionSort (· ≤ ·) (wFutures.map Prod.fst)) ∧
    (asyncGet wFutures .all false (fun _ => false) false).futures = [] :=
  async_get_all_ascending wFutures (fun _ => false) false (by decide)
    (by decide)

theorem lookupA_not_mem_keys {κ α : Type} [DecidableEq κ]
    (m : List (κ × α)) (k : κ) (h : k ∉ m.map Prod.fst) :
    lookupA m k = none := by
  cases hl : lookupA m k with
  | none => rfl
  | some v =>
      exact absurd
        (List.mem_map_of_mem Prod.fst (lookupA_mem m k v hl)) h

theorem setA_absent {κ α : Type} [DecidableEq κ]
    (m : List (κ × α)) (k : κ) (v : α) (h : lookupA m k = none) :
    setA m k v = m ++ [(k, v)] := by
  induction m with
  | nil => rfl
  | cons p rest ih =>
      by_cases hp : p.1 = k
      · rw [lookupA, if_pos hp] at h
        cases h
      · rw [lookupA, if_neg hp] at h
        simp [setA, hp, ih h]

theorem foldl_setA_append (l acc : List (Nat × MFuture))
    (hnd : (l.map Prod.fst).Nodup)
    (hdisj : ∀ p ∈ l, lookupA acc p.1 = none) :
    l.foldl (fun m q => setA m q.1 q.2) acc = acc ++ l := by
  induction l generalizing acc with
  | nil => simp
  | cons q rest ih =>
      have hq : lookupA acc q.1 = none := hdisj q (List.mem_cons_self q rest)
      have hnd2 := List.nodup_cons.mp
        (by simpa using hnd : (q.1 :: rest.map Prod.fst).Nodup)
      have hdisj2 : ∀ p ∈ rest, lookupA (acc ++ [q]) p.1 = none := by
        intro p hp
        rw [lookupA_append, hdisj p (List.mem_cons_of_mem q hp)]
        have : q.1 ≠ p.1 := fun he =>
          hnd2.1 (he ▸ List.mem_map_of_mem Prod.fst hp)
        simp [lookupA, this]
      calc (q :: rest).foldl (fun m q => setA m q.1 q.2) acc
          = rest.foldl (fun m q => setA m q.1 q.2) (setA acc q.1 q.2) := rfl
        _ = rest.foldl (fun m q => setA m q.1 q.2) (acc ++ [q]) := by
            rw [setA_absent acc q.1 q.2 hq]
        _ = (acc ++ [q]) ++ rest := ih (acc ++ [q]) hnd2.2 hdisj2
        _ = acc ++ q :: rest := by simp

theorem filterMap_pairing_keys (futures : List (Nat × MFuture))
    (hs : List Nat) (hpres : ∀ x ∈ hs, (lookupA futures x).isSome) :
    (hs.filterMap fun x =>
      (lookupA futures x).map fun f => (x, f)).map Prod.fst = hs := by
  induction hs with
  | nil => rfl
  | cons x rest ih =>
      obtain ⟨f, hf⟩ := Option.isSome_iff_exists.mp
        (hpres x (List.mem_cons_self x rest))
      simp [List.filterMap_cons, hf,
        ih fun y hy => hpres y (List.mem_cons_of_mem x hy)]

theorem filterMap_pairing_filter_len (futures : List (Nat × MFuture))
    (hs : List Nat) (pred : Nat → Bool)
    (hpres : ∀ x ∈ hs, (lookupA futures x).isSome) :
    ((hs.filterMap fun x =>
        (lookupA futures x).map fun f => (x, f)).filter
      fun q => pred q.1).length = (hs.filter pred).length := by
  induction hs with
  | nil => rfl
  | cons x rest ih =>
      obtain ⟨f, hf⟩ := Option.isSome_iff_exists.mp
        (hpres x (List.mem_cons_self x rest))
      have ih2 := ih fun y hy => hpres y (List.mem_cons_of_mem x hy)
      cases hpx : pred x <;>
        simp [List.filterMap_cons, hf, List.filter_cons, hpx, ih2]

theorem filterMap_pairing_len (futures : List (Nat × MFuture))
    (hs : List Nat) (hpres : ∀ x ∈ hs, (lookupA futures x).isSome) :
    (hs.filterMap fun x =>
      (lookupA futures x).map fun f => (x, f)).length = hs.length := by
  have := filterMap_pairing_keys futures hs hpres
  calc (hs.filterMap fun x =>
        (lookupA futures x).map fun f => (x, f)).length
      = ((hs.filterMap fun x =>
          (lookupA futures x).map fun f => (x, f)).map Prod.fst).length :=
        (List.length_map _ _).symm
    _ = hs.length := by rw [this]

/-- C5: an `async_get` with a timeout where only the futures selected by
`fin` finish within the wait raises the timeout error (reporting the
unfinished and total counts), reinserts exactly the unfinished handles
into the live table with their futures unchanged — nothing is cancelled —
and replays the effect-streams of the finished handles in ascending
handle order, those handles having been removed from the table. -/
theorem async_get_timeout (futures : List (Nat × MFuture))
    (fin : Nat → Bool) (hasEG : Bool)
    (hnd : (futures.map Prod.fst).Nodup)
    (hexc : ∀ p ∈ futures, fin p.1 = true → p.2.exc = none)
    (hnf : ∃ p ∈ futures, fin p.1 = false) :
    (asyncGet futures .all true fin hasEG).result =
      Except.error (.single (GErr.timeoutErr
        (futures.filter fun p => !fin p.1).length futures.length)) ∧
    (∀ h, lookupA (asyncGet futures .all true fin hasEG).futures h =
      if fin h then none else lookupA futures h) ∧
    (asyncGet futures .all true fin hasEG).replayed =
      ((List.insertionSort (· ≤ ·) (futures.map Prod.fst)).filter
        fin).filterMap
        fun h => (lookupA futures h).map MFuture.postponeId := by
  set sorted := List.insertionSort (· ≤ ·) (futures.map Prod.fst)
    with hsdef
  have hperm : sorted.Perm (futures.map Prod.fst) :=
    List.perm_insertionSort _ _
  have hnd2 : sorted.Nodup := hperm.nodup_iff.mpr hnd
  have hpres : ∀ x ∈ sorted, (lookupA futures x).isSome :=
    fun x hx => lookupA_isSome_of_mem_keys futures x (hperm.subset hx)
  have hpl := parseLoop1_ok futures sorted [] hnd2 (fun x _ => rfl) hpres
  set fmap := sorted.filterMap
    (fun h => (lookupA futures h).map fun f => (h, f)) with hfmdef
  have hlook : ∀ h ∈ sorted, lookupA fmap h = lookupA futures h :=
    fun h hh => lookupA_parse_fmap futures sorted hnd2 hpres h hh
  have hrem : removeHandles futures sorted = [] :=
    removeHandles_all futures sorted
      (fun p hp => hperm.mem_iff.mpr (List.mem_map_of_mem Prod.fst hp))
  have hph : parseHandle futures .all =
      (Except.ok (true, sorted, fmap), []) := by
    simp only [parseHandle, hpl, hrem, List.nil_append]
  have hkeysf : fmap.map Prod.fst = sorted :=
    filterMap_pairing_keys futures sorted hpres
  have hexcs : sorted.filterMap (fun h => if fin h then
      ((lookupA fmap h).bind MFuture.exc).map GErr.futureExc
      else none) = [] := by
    apply List.filterMap_eq_nil_iff.mpr
    intro h hh
    cases hfh : fin h with
    | false => simp [hfh]
    | true =>
        rw [if_pos rfl, hlook h hh]
        obtain ⟨f, hf⟩ := Option.isSome_iff_exists.mp (hpres h hh)
        rw [hf]
        have hfe : f.exc = none :=
          hexc (h, f) (lookupA_mem futures h f hf) hfh
        simp [Option.bind, hfe]
  have hnotlen : (fmap.filter fun q => !fin q.1).length =
      (futures.filter fun p => !fin p.1).length := by
    rw [filterMap_pairing_filter_len futures sorted
      (fun k => !fin k) hpres]
    have h1 : (sorted.filter fun k => !fin k).Perm
        ((futures.map Prod.fst).filter fun k => !fin k) := hperm.filter _
    rw [h1.length_eq, List.filter_map, List.length_map]
    rfl
  have hflen : fmap.length = futures.length := by
    rw [filterMap_pairing_len futures sorted hpres, hperm.length_eq,
      List.length_map]
  have hne : (fmap.filter fun q => !fin q.1).isEmpty = false := by
    cases he : (fmap.filter fun q => !fin q.1).isEmpty
    · rfl
    · exfalso
      obtain ⟨p, hp, hfp⟩ := hnf
      have hpm : p ∈ futures.filter fun p => !fin p.1 :=
        List.mem_filter.mpr ⟨hp, by simp [hfp]⟩
      have h0 : (fmap.filter fun q => !fin q.1) = [] :=
        List.isEmpty_iff.mp he
      rw [h0] at hnotlen
      have : (futures.filter fun p => !fin p.1) = [] :=
        List.length_eq_zero.mp hnotlen.symm
      rw [this] at hpm
      exact absurd hpm (List.not_mem_nil p)
  have hkeysnd : ((fmap.filter fun q => !fin q.1).map Prod.fst).Nodup := by
    have hsub : ((fmap.filter fun q => !fin q.1).map Prod.fst).Sublist
        (fmap.map Prod.fst) := (List.filter_sublist fmap).map Prod.fst
    exact (hkeysf ▸ hnd2).sublist hsub
  have hfold : (fmap.filter fun q => !fin q.1).foldl
      (fun m q => setA m q.1 q.2) [] = fmap.filter fun q => !fin q.1 := by
    have := foldl_setA_append (fmap.filter fun q => !fin q.1) []
      hkeysnd (fun p _ => rfl)
    simpa using this
  have hlookfut : ∀ h, lookupA (fmap.filter fun q => !fin q.1) h =
      if fin h then none else lookupA futures h := by
    intro h
    rw [lookupA_filter_key fmap (fun k => !fin k) h]
    cases hfh : fin h with
    | true => simp
    | false =>
        simp only [Bool.not_false, if_true]
        by_cases hh : h ∈ sorted
        · exact hlook h hh
        · rw [lookupA_not_mem_keys fmap h (by rw [hkeysf]; exact hh),
            lookupA_not_mem_keys futures h
              (fun hk => hh (hperm.mem_iff.mpr hk))]
          rfl
  have hget : asyncGet futures .all true fin hasEG =
      { result := Except.error (.single (GErr.timeoutErr
          (fmap.filter fun q => !fin q.1).length fmap.length))
        futures := fmap.filter fun q => !fin q.1
        replayed := (sorted.filter fun h => fin h).filterMap fun h =>
          (lookupA fmap h).map MFuture.postponeId } := by
    simp only [asyncGet, hph, Bool.not_true, Bool.false_or, hexcs, hne,
      Bool.false_eq_true, if_false, List.nil_append, hfold,
      List.isEmpty_nil, if_true, List.singleton_append]
  rw [hget]
  refine ⟨by rw [hnotlen, hflen], hlookfut, ?_⟩
  exact filterMap_ext _ _ _ (fun h hh => by
    show (lookupA fmap h).map MFuture.postponeId =
      (lookupA futures h).map MFuture.postponeId
    rw [hlook h (List.mem_of_mem_filter hh)])

/-- Witness table for the timeout theorem: handle 0 finishes within the
wait, handle 1 does not. -/
def tFutures : List (Nat × MFuture) :=
  [(0, MFuture.mk none 20 10), (1, MFuture.mk none 21 11)]

/-- Witness for the C5 theorem at a concrete table and wait partition. -/
theorem async_get_timeout_witness :
    (asyncGet tFutures .all true (fun h => h == 0) false).result =
      Except.error (.single (GErr.timeoutErr
        (tFutures.filter fun p => !(p.1 == 0)).length tFutures.length)) ∧
    (∀ h, lookupA
        (asyncGet tFutures .all true (fun h => h == 0) false).futures h =
      if h == 0 then none else lookupA tFutures h) ∧
    (asyncGet tFutures .all true (fun h => h == 0) false).replayed =
      ((List.insertionSort (· ≤ ·) (tFutures.map Prod.fst)).filter
        (fun h => h == 0)).filterMap
        fun h => (lookupA tFutures h).map MFuture.postponeId :=
  async_get_timeout tFutures (fun h => h == 0) false (by decide)
    (by decide) (by decide)

/-- Witness table for the aggregated-raise development: two tasks whose
futures both carry an exception. -/
def egFutures : List (Nat × MFuture) :=
  [(0, MFuture.mk (some 4) 0 10), (1, MFuture.mk (some 6) 0 11)]

/-- C6 counterexample: on a runtime without `ExceptionGroup`, the
`except NameError` fallback in `async_get` raises only `exceptions[-1]`.
With two task errors gathered (errors 4 and 6, in ascending handle
order), the call raises the last error alone — not a single grouped
failure containing both — refuting the claim as stated. -/
theorem async_get_no_group_fallback :
    (asyncGet egFutures .all false (fun _ => true) false).result =
      Except.error (AsyncRaise.single (GErr.futureExc 6)) ∧
    (Except.error (AsyncRaise.single (GErr.futureExc 6)) :
        Except AsyncRaise (List Nat ⊕ Nat)) ≠
      Except.error (AsyncRaise.group
        [GErr.futureExc 4, GErr.futureExc 6]) := by
  refine ⟨rfl, ?_⟩
  intro h
  simp at h

/-- Every error an all-handles `async_get` gathers into its `exceptions`
list, read off the live table directly: the task errors of the futures
finished within the wait, in ascending handle order, followed by the
timeout error (with its unfinished and total counts) when some future
did not finish. -/
def gatheredWithTimeout (futures : List (Nat × MFuture))
    (timeoutSet : Bool) (fin : Nat → Bool) : List GErr :=
  if (futures.filter fun p => !(!timeoutSet || fin p.1)).length = 0 then
    (List.insertionSort (· ≤ ·) (futures.map Prod.fst)).filterMap
      fun h => if !timeoutSet || fin h then
        ((lookupA futures h).bind MFuture.exc).map GErr.futureExc
      else none
  else
    ((List.insertionSort (· ≤ ·) (futures.map Prod.fst)).filterMap
      fun h => if !timeoutSet || fin h then
        ((lookupA futures h).bind MFuture.exc).map GErr.futureExc
      else none) ++
    [GErr.timeoutErr
      (futures.filter fun p => !(!timeoutSet || fin p.1)).length
      futures.length]

/-- C6 amended: for an all-handles `async_get`, the gathered errors are
the finished futures' task errors in ascending handle order, followed by
a timeout error when some future did not finish within the wait.  When
no error was gathered the ordered results are returned; when exactly one
was gathered that sole error is raised; when more than one was gathered
(task errors and/or a timeout) they are raised together as a single
grouped failure when the runtime provides `ExceptionGroup`, and only the
last gathered error is raised when it does not (the `NameError`
fallback). -/
theorem async_get_aggregated_raise (futures : List (Nat × MFuture))
    (timeoutSet : Bool) (fin : Nat → Bool) (hasEG : Bool)
    (hnd : (futures.map Prod.fst).Nodup) :
    (gatheredWithTimeout futures timeoutSet fin = [] →
      (asyncGet futures .all timeoutSet fin hasEG).result =
        Except.ok (Sum.inl
          ((List.insertionSort (· ≤ ·) (futures.map Prod.fst)).filterMap
            fun h => (lookupA futures h).map MFuture.res))) ∧
    (∀ e, gatheredWithTimeout futures timeoutSet fin = [e] →
      (asyncGet futures .all timeoutSet fin hasEG).result =
        Except.error (.single e)) ∧
    (∀ e es2, gatheredWithTimeout futures timeoutSet fin = e :: es2 →
      es2 ≠ [] →
      (asyncGet futures .all timeoutSet fin hasEG).result =
        Except.error (if hasEG then AsyncRaise.group (e :: es2)
          else AsyncRaise.single
            ((e :: es2).getLast (List.cons_ne_nil e es2)))) := by
  set sorted := List.insertionSort (· ≤ ·) (futures.map Prod.fst)
    with hsdef
  have hperm : sorted.Perm (futures.map Prod.fst) :=
    List.perm_insertionSort _ _
  have hnd2 : sorted.Nodup := hperm.nodup_iff.mpr hnd
  have hpres : ∀ x ∈ sorted, (lookupA futures x).isSome :=
    fun x hx => lookupA_isSome_of_mem_keys futures x (hperm.subset hx)
  have hpl := parseLoop1_ok futures sorted [] hnd2 (fun x _ => rfl) hpres
  set fmap := sorted.filterMap
    (fun h => (lookupA futures h).map fun f => (h, f)) with hfmdef
  have hlook : ∀ h ∈ sorted, lookupA fmap h = lookupA futures h :=
    fun h hh => lookupA_parse_fmap futures sorted hnd2 hpres h hh
  have hrem : removeHandles futures sorted = [] :=
    removeHandles_all futures sorted
      (fun p hp => hperm.mem_iff.mpr (List.mem_map_of_mem Prod.fst hp))
  have hph : parseHandle futures .all =
      (Except.ok (true, sorted, fmap), []) := by
    simp only [parseHandle, hpl, hrem, List.nil_append]
  have htErr : (sorted.filterMap fun h => if !timeoutSet || fin h then
      ((lookupA fmap h).bind MFuture.exc).map GErr.futureExc else none) =
      sorted.filterMap fun h => if !timeoutSet || fin h then
        ((lookupA futures h).bind MFuture.exc).map GErr.futureExc
      else none :=
    filterMap_ext _ _ _ (fun h hh => by
      show (if !timeoutSet || fin h then
          ((lookupA fmap h).bind MFuture.exc).map GErr.futureExc
        else none) =
        if !timeoutSet || fin h then
          ((lookupA futures h).bind MFuture.exc).map GErr.futureExc
        else none
      rw [hlook h hh])
  have hret : (sorted.filterMap fun h =>
      (lookupA fmap h).map MFuture.res) =
      sorted.filterMap fun h => (lookupA futures h).map MFuture.res :=
    filterMap_ext _ _ _ (fun h hh => by
      show (lookupA fmap h).map MFuture.res =
        (lookupA futures h).map MFuture.res
      rw [hlook h hh])
  have hnotlen : (fmap.filter fun q => !(!timeoutSet || fin q.1)).length =
      (futures.filter fun p => !(!timeoutSet || fin p.1)).length := by
    rw [filterMap_pairing_filter_len futures sorted
      (fun k => !(!timeoutSet || fin k)) hpres]
    have h1 : (sorted.filter fun k => !(!timeoutSet || fin k)).Perm
        ((futures.map Prod.fst).filter
          fun k => !(!timeoutSet || fin k)) := hperm.filter _
    rw [h1.length_eq, List.filter_map, List.length_map]
    rfl
  have hflen : fmap.length = futures.length := by
    rw [filterMap_pairing_len futures sorted hpres, hperm.length_eq,
      List.length_map]
  by_cases hnd0 :
      (futures.filter fun p => !(!timeoutSet || fin p.1)).length = 0
  · -- every future finished within the wait: no timeout error gathered
    have hnil : (fmap.filter fun q => !(!timeoutSet || fin q.1)) = [] :=
      List.length_eq_zero.mp (by rw [hnotlen]; exact hnd0)
    have hgw : gatheredWithTimeout futures timeoutSet fin =
        sorted.filterMap fun h => if !timeoutSet || fin h then
          ((lookupA futures h).bind MFuture.exc).map GErr.futureExc
        else none := by
      simp only [gatheredWithTimeout, if_pos hnd0]
    refine ⟨fun h0 => ?_, fun e h1 => ?_, fun e es2 h1 hne => ?_⟩
    · rw [hgw] at h0
      simp only [asyncGet, hph, htErr, h0, hnil, List.isEmpty_nil,
        if_true, hret]
    · rw [hgw] at h1
      simp only [asyncGet, hph, htErr, h1, hnil, List.isEmpty_nil,
        if_true]
    · rw [hgw] at h1
      have hes2 : es2.isEmpty = false := by
        cases es2 with
        | nil => exact absurd rfl hne
        | cons a b => rfl
      simp only [asyncGet, hph, htErr, h1, hnil, List.isEmpty_nil,
        if_true, hes2, Bool.false_eq_true, if_false]
  · -- some future is unfinished: the timeout error is appended last
    have hnnil : (fmap.filter fun q => !(!timeoutSet || fin q.1)) ≠ [] := by
      intro h0
      apply hnd0
      rw [← hnotlen, h0]
      rfl
    have he : (fmap.filter fun q => !(!timeoutSet || fin q.1)).isEmpty =
        false := by
      cases hc : (fmap.filter fun q => !(!timeoutSet || fin q.1)) with
      | nil => exact absurd hc hnnil
      | cons a b => rfl
    have hgw : gatheredWithTimeout futures timeoutSet fin =
        (sorted.filterMap fun h => if !timeoutSet || fin h then
          ((lookupA futures h).bind MFuture.exc).map GErr.futureExc
        else none) ++
        [GErr.timeoutErr
          (futures.filter fun p => !(!timeoutSet || fin p.1)).length
          futures.length] := by
      simp only [gatheredWithTimeout, if_neg hnd0]
    cases htE : (sorted.filterMap fun h => if !timeoutSet || fin h then
        ((lookupA futures h).bind MFuture.exc).map GErr.futureExc
      else none) with
    | nil =>
        refine ⟨fun h0 => ?_, fun e h1 => ?_, fun e es2 h1 hne => ?_⟩
        · rw [hgw, htE] at h0
          simp at h0
        · rw [hgw, htE, List.nil_append] at h1
          obtain ⟨he1, _⟩ := List.cons_eq_cons.mp h1
          subst he1
          simp only [asyncGet, hph, htErr, htE, he, Bool.false_eq_true,
            if_false, hnotlen, hflen, List.nil_append, List.isEmpty_nil,
            if_true]
        · rw [hgw, htE, List.nil_append] at h1
          obtain ⟨_, he2⟩ := List.cons_eq_cons.mp h1
          exact absurd he2.symm hne
    | cons e0 es0 =>
        have hsne : (es0 ++ [GErr.timeoutErr
            (futures.filter fun p => !(!timeoutSet || fin p.1)).length
            futures.length]).isEmpty = false := by
          cases es0 <;> rfl
        refine ⟨fun h0 => ?_, fun e h1 => ?_, fun e es2 h1 hne => ?_⟩
        · rw [hgw, htE] at h0
          simp at h0
        · rw [hgw, htE, List.cons_append] at h1
          obtain ⟨_, he2⟩ := List.cons_eq_cons.mp h1
          simp at he2
        · rw [hgw, htE, List.cons_append] at h1
          obtain ⟨he1, he2⟩ := List.cons_eq_cons.mp h1
          subst he1
          subst he2
          simp only [asyncGet, hph, htErr, htE, he, Bool.false_eq_true,
            if_false, hnotlen, hflen, List.cons_append, hsne]

/-- Witness table for the aggregated-raise theorem: handle 0 finishes
with a task error, handle 1 does not finish within the wait. -/
def mFutures : List (Nat × MFuture) :=
  [(0, MFuture.mk (some 4) 0 10), (1, MFuture.mk none 0 11)]

/-- Witness for the amended C6 theorem: a task error and a timeout are
aggregated into one grouped failure when `ExceptionGroup` exists. -/
theorem async_get_aggregated_raise_witness :
    (asyncGet mFutures .all true (fun h => h == 0) true).result =
      Except.error (AsyncRaise.group
        [GErr.futureExc 4, GErr.timeoutErr 1 2]) :=
  (async_get_aggregated_raise mFutures true (fun h => h == 0) true
    (by decide)).2.2 (GErr.futureExc 4) [GErr.timeoutErr 1 2] (by decide)
    (by decide)

/-!
## AsyncLibrary._wait_all — the shutdown / end-of-suite teardown
-/

/-- A live future as `_wait_all` sees it: whether `future.cancel()`
succeeds (true exactly when the task never started running), whether its
ScopedContext was ever activated (activation happens only inside `_run`
on the worker, so a never-started task's context was never activated),
and the attached effect-stream id. -/
structure WFuture where
  cancellable : Bool
  activated : Bool
  postponeId : Nat
deriving DecidableEq

/-- Outcome of a `_wait_all` call. -/
structure WaitAllOut where
  /-- handles whose `future._scope.kill()` was invoked, in table order -/
  killedScopes : List Nat
  /-- handles kept and awaited by `wait(futures.values())` -/
  waited : List Nat
  /-- postpone ids replayed, in replay order -/
  replayed : List Nat
  /-- the live table afterwards (`self._futures.clear()`) -/
  futures : List (Nat × WFuture)

/-- The partition loop of `_wait_all`: try to cancel every live future;
kill the scope of each successfully cancelled one, keep the rest with
their handles. -/
def waitAllLoop : List (Nat × WFuture) → List Nat × List (Nat × WFuture)
  | [] => ([], [])
  | (h, f) :: rest =>
      let r := waitAllLoop rest
      if f.cancellable then (h :: r.1, r.2) else (r.1, (h, f) :: r.2)

/-- `AsyncLibrary._wait_all`: partition the live table by cancellation,
clear it, wait on the kept futures, then replay the kept handles'
effect-streams in ascending handle order.  The cancelled futures'
streams are not touched. -/
def waitAll (futures : List (Nat × WFuture)) : WaitAllOut :=
  let r := waitAllLoop futures
  let handles := List.insertionSort (· ≤ ·) (r.2.map Prod.fst)
  { killedScopes := r.1
    waited := r.2.map Prod.fst
    replayed := handles.filterMap fun h =>
      (lookupA r.2 h).map WFuture.postponeId
    futures := [] }

/-- A future whose task never started: cancellable, never activated,
effect-stream id 7. -/
def cexWFuture : WFuture :=
  { cancellable := true, activated := false, postponeId := 7 }

/-- C1 counterexample: with one live handle whose task never started,
`_wait_all` cancels it and kills its scope, but replays nothing — the
claim's "effect-streams of all M handles replayed" fails: the single
handle's stream (id 7) is not replayed.  (Replaying it would in fact
raise a key-lookup error, since its queue was never created — see the
`Postpone.replay` theorem for C10.) -/
theorem wait_all_cancelled_not_replayed :
    (waitAll [(0, cexWFuture)]).killedScopes = [0] ∧
    (waitAll [(0, cexWFuture)]).replayed = [] ∧
    [(0, cexWFuture)].map (fun p => p.2.postponeId) = [7] ∧
    ([] : List Nat) ≠ [7] := by
  refine ⟨rfl, rfl, rfl, by decide⟩

theorem length_filter_partition {α : Type} (l : List α) (p : α → Bool) :
    (l.filter p).length + (l.filter fun x => !p x).length = l.length := by
  induction l with
  | nil => rfl
  | cons a rest ih =>
      cases ha : p a <;> simp [List.filter_cons, ha, ← ih] <;> omega

theorem waitAllLoop_eq (futures : List (Nat × WFuture)) :
    waitAllLoop futures =
      ((futures.filter fun p => p.2.cancellable).map Prod.fst,
        futures.filter fun p => !p.2.cancellable) := by
  induction futures with
  | nil => rfl
  | cons p rest ih =>
      obtain ⟨h, f⟩ := p
      cases hc : f.cancellable <;>
        simp [waitAllLoop, ih, List.filter_cons, hc]

/-- C1 amended: `_wait_all` with M live handles of which J belong to
not-yet-started (cancellable) tasks kills exactly those J tasks' scopes —
none of which was ever activated — keeps and awaits the remaining M−J,
clears the table, and replays the effect-streams of the M−J non-cancelled
handles in ascending handle order; the J cancelled handles' streams are
not replayed. -/
theorem wait_all_spec (futures : List (Nat × WFuture))
    (hnd : (futures.map Prod.fst).Nodup)
    (hact : ∀ p ∈ futures, p.2.cancellable = true →
      p.2.activated = false) :
    (waitAll futures).killedScopes =
      (futures.filter fun p => p.2.cancellable).map Prod.fst ∧
    (∀ h ∈ (waitAll futures).killedScopes, ∀ f, (h, f) ∈ futures →
      f.activated = false) ∧
    (waitAll futures).waited =
      (futures.filter fun p => !p.2.cancellable).map Prod.fst ∧
    (waitAll futures).killedScopes.length +
      (waitAll futures).waited.length = futures.length ∧
    (waitAll futures).replayed =
      (List.insertionSort (· ≤ ·) (waitAll futures).waited).filterMap
        (fun h => (lookupA futures h).map WFuture.postponeId) ∧
    List.Sorted (· ≤ ·)
      (List.insertionSort (· ≤ ·) (waitAll futures).waited) ∧
    (waitAll futures).futures = [] := by
  have hloop := waitAllLoop_eq futures
  have hkill : (waitAll futures).killedScopes =
      (futures.filter fun p => p.2.cancellable).map Prod.fst := by
    simp [waitAll, hloop]
  have hwait : (waitAll futures).waited =
      (futures.filter fun p => !p.2.cancellable).map Prod.fst := by
    simp [waitAll, hloop]
  refine ⟨hkill, ?_, hwait, ?_, ?_, List.sorted_insertionSort _ _, rfl⟩
  · intro h hh f hf
    rw [hkill] at hh
    obtain ⟨p, hp, hp2⟩ := List.mem_map.mp hh
    have hpm := List.mem_of_mem_filter hp
    have hpc : p.2.cancellable = true := by
      have := List.of_mem_filter hp
      simpa using this
    have : lookupA futures h = some p.2 := by
      rw [← hp2]
      exact lookupA_eq_of_mem futures hnd p.1 p.2 hpm
    have hf2 : lookupA futures h = some f :=
      lookupA_eq_of_mem futures hnd h f hf
    rw [this] at hf2
    cases hf2
    exact hact p hpm hpc
  · rw [hkill, hwait]
    calc ((futures.filter fun p => p.2.cancellable).map Prod.fst).length +
          ((futures.filter fun p => !p.2.cancellable).map Prod.fst).length
        = (futures.filter fun p => p.2.cancellable).length +
          (futures.filter fun p => !p.2.cancellable).length := by
          rw [List.length_map, List.length_map]
      _ = futures.length :=
          length_filter_partition futures fun p => p.2.cancellable
  · rw [hwait]
    have hrepl : (waitAll futures).replayed =
        (List.insertionSort (· ≤ ·)
          ((futures.filter fun p => !p.2.cancellable).map Prod.fst)).filterMap
          fun h => (lookupA (futures.filter fun p => !p.2.cancellable) h).map
            WFuture.postponeId := by
      simp [waitAll, hloop]
    rw [hrepl]
    apply filterMap_ext
    intro h hh
    have hh2 : h ∈ (futures.filter fun p => !p.2.cancellable).map Prod.fst :=
      (List.perm_insertionSort _ _).subset hh
    obtain ⟨f, hf⟩ := Option.isSome_iff_exists.mp
      (lookupA_isSome_of_mem_keys _ h hh2)
    have hmem : (h, f) ∈ futures.filter fun p => !p.2.cancellable :=
      lookupA_mem _ h f hf
    have : lookupA futures h = some f :=
      lookupA_eq_of_mem futures hnd h f (List.mem_of_mem_filter hmem)
    show (lookupA (futures.filter fun p => !p.2.cancellable) h).map
        WFuture.postponeId = (lookupA futures h).map WFuture.postponeId
    rw [hf, this]

/-- Witness table for the shutdown theorem: three live handles, one of
them (handle 0) cancellable and never activated. -/
def sFutures : List (Nat × WFuture) :=
  [(1, WFuture.mk false true 11), (0, WFuture.mk true false 10),
   (2, WFuture.mk false true 12)]

/-- Witness for the amended C1 theorem at a concrete three-task table. -/
theorem wait_all_spec_witness :
    (waitAll sFutures).killedScopes =
      (sFutures.filter fun p => p.2.cancellable).map Prod.fst ∧
    (∀ h ∈ (waitAll sFutures).killedScopes, ∀ f, (h, f) ∈ sFutures →
      f.activated = false) ∧
    (waitAll sFutures).waited =
      (sFutures.filter fun p => !p.2.cancellable).map Prod.fst ∧
    (waitAll sFutures).killedScopes.length +
      (waitAll sFutures).waited.length = sFutures.length ∧
    (waitAll sFutures).replayed =
      (List.insertionSort (· ≤ ·) (waitAll sFutures).waited).filterMap
        (fun h => (lookupA sFutures h).map WFuture.postponeId) ∧
    List.Sorted (· ≤ ·)
      (List.insertionSort (· ≤ ·) (waitAll sFutures).waited) ∧
    (waitAll sFutures).futures = [] :=
  wait_all_spec sFutures (by decide) (by decide)

end AsyncLib
